import Mathlib

/-!
# Phase-change diagram service (`main.go`)

A shallow embedding of the service's one source file:

* `getVolumes`, the formula evaluator, over a model of the Go type `float64`
  (IEEE 754 binary64, round to nearest, ties to even);
* the `/phase-change-diagram` route handler and the `routesConfig`
  middleware, over an explicit `http.ResponseWriter` state.

What the standard library and gorilla/mux do (`strconv.ParseFloat`,
`encoding/json`, `net/http`, the router) is either a parameter or a small
model whose doc comment says what it stands for.
-/

set_option exponentiation.threshold 5000
set_option maxRecDepth 100000

namespace PhaseChange

/-! ## binary64 -/

/-- A `float64` value. A finite value is a sign and a magnitude `k` counted in
units of `2^-1074`, the spacing of the subnormal numbers: every finite double
is `± k / 2^1074` for exactly one natural number `k` (and `fin true 0` is the
negative zero). All NaNs are one value; no operation of `main.go` looks at a
NaN payload. -/
inductive F64 where
  | nan : F64
  | inf (neg : Bool) : F64
  | fin (neg : Bool) (k : Nat) : F64
deriving DecidableEq

/-- The number of units in 1.0: `1 = 2^1074 * 2^-1074`. -/
def scale : Nat := 2 ^ 1074

/-- The first magnitude that is too large for a finite double: `2^1024`, in units. -/
def overflowK : Nat := 2 ^ 2098

/-- Nearest natural number to `n / d`, ties to the even one. -/
def rneDiv (n d : Nat) : Nat :=
  let q := n / d
  let r := n % d
  if 2 * r < d then q else if d < 2 * r then q + 1 else if q % 2 = 0 then q else q + 1

/-- The binary exponent of the spacing of the doubles around `n / d` units:
`0` below `2^53` units (subnormals and the first normal binade), and `j` when
`2^(52+j) ≤ n / d < 2^(53+j)`. The first argument bounds the search; `n`
itself is always enough. -/
def scaleExp : Nat → Nat → Nat → Nat
  | 0, _, _ => 0
  | fuel + 1, n, d => if n < d * 2 ^ 53 then 0 else scaleExp fuel n (2 * d) + 1

/-- The magnitude `n / d` (in units) rounded to a multiple of the local spacing
with a 53-bit significand, to nearest, ties to even. -/
def roundK (n d : Nat) : Nat :=
  let j := scaleExp n n d
  rneDiv n (d * 2 ^ j) * 2 ^ j

/-- Rounding of the exact magnitude `n / d` units with sign `neg` to a double:
overflow gives an infinity, underflow a signed zero. -/
def roundU (neg : Bool) (n d : Nat) : F64 :=
  let k := roundK n d
  if k < overflowK then F64.fin neg k else F64.inf neg

/-- A magnitude is that of a finite double: below `2^1024` and a multiple of
its own spacing. -/
def isRep (k : Nat) : Prop := k < overflowK ∧ k % 2 ^ scaleExp k k 1 = 0

instance (k : Nat) : Decidable (isRep k) := by unfold isRep; infer_instance

/-- The values a `float64` variable can hold. -/
def F64.WF : F64 → Prop
  | .fin _ k => isRep k
  | _ => True

instance (x : F64) : Decidable x.WF := by cases x <;> unfold F64.WF <;> infer_instance

/-- The constant `n / d` as Go converts an untyped constant to `float64`:
the nearest double. -/
def ofRatio (n d : Nat) : F64 := roundU false (n * scale) d

/-- An integer constant converted to `float64`. -/
def ofNat (n : Nat) : F64 := ofRatio n 1

/-- The signed magnitude of a finite double, in units. -/
def signedK (neg : Bool) (k : Nat) : Int := if neg then -(k : Int) else (k : Int)

/-- The real value of a finite double (and `0` for NaN and the infinities,
which have none). -/
def F64.toRat : F64 → ℚ
  | .fin neg k => (signedK neg k : ℚ) / (2 : ℚ) ^ 1074
  | _ => 0

/-- Finite values: neither NaN nor an infinity. -/
def F64.isFinite : F64 → Bool
  | .fin _ _ => true
  | _ => false

/-- Test for NaN. -/
def F64.isNaN : F64 → Bool
  | .nan => true
  | _ => false

/-- The Go operator `<` on `float64`: false when either side is NaN, the two zeros equal. -/
def flt : F64 → F64 → Bool
  | .nan, _ => false
  | _, .nan => false
  | .inf s, .inf t => s && !t
  | .inf s, .fin _ _ => s
  | .fin _ _, .inf t => !t
  | .fin s a, .fin t b => decide (signedK s a < signedK t b)

/-- The Go operator `>` on `float64`. -/
def fgt (x y : F64) : Bool := flt y x

/-- The Go operator `<=` on `float64`: false when either side is NaN. -/
def fle : F64 → F64 → Bool
  | .nan, _ => false
  | _, .nan => false
  | .inf s, .inf t => s || !t
  | .inf s, .fin _ _ => s
  | .fin _ _, .inf t => !t
  | .fin s a, .fin t b => decide (signedK s a ≤ signedK t b)

/-- The Go operator `==` on `float64`: false when either side is NaN, `-0 == +0`. -/
def feq : F64 → F64 → Bool
  | .nan, _ => false
  | _, .nan => false
  | .inf s, .inf t => s == t
  | .inf _, .fin _ _ => false
  | .fin _ _, .inf _ => false
  | .fin s a, .fin t b => decide (signedK s a = signedK t b)

/-- The Go operator `*` on `float64`. -/
def fmul : F64 → F64 → F64
  | .nan, _ => .nan
  | _, .nan => .nan
  | .inf s, .inf t => .inf (xor s t)
  | .inf s, .fin t b => if b = 0 then .nan else .inf (xor s t)
  | .fin s a, .inf t => if a = 0 then .nan else .inf (xor s t)
  | .fin s a, .fin t b => roundU (xor s t) (a * b) scale

/-- The Go operator `/` on `float64`. -/
def fdiv : F64 → F64 → F64
  | .nan, _ => .nan
  | _, .nan => .nan
  | .inf _, .inf _ => .nan
  | .inf s, .fin t _ => .inf (xor s t)
  | .fin s _, .inf t => .fin (xor s t) 0
  | .fin s a, .fin t b =>
    if b = 0 then (if a = 0 then .nan else .inf (xor s t))
    else roundU (xor s t) (a * scale) b

/-- The Go operator `+` on `float64`. An exact zero sum is `+0` unless both terms are
negative (then both are `-0`). -/
def fadd : F64 → F64 → F64
  | .nan, _ => .nan
  | _, .nan => .nan
  | .inf s, .inf t => if s = t then .inf s else .nan
  | .inf s, .fin _ _ => .inf s
  | .fin _ _, .inf t => .inf t
  | .fin s a, .fin t b =>
    let sum : Int := signedK s a + signedK t b
    if sum = 0 then .fin (s && t) 0
    else roundU (decide (sum < 0)) sum.natAbs 1

/-- Unary minus. -/
def fneg : F64 → F64
  | .nan => .nan
  | .inf s => .inf (!s)
  | .fin s k => .fin (!s) k

/-- The Go binary operator `-` on `float64`. -/
def fsub (x y : F64) : F64 := fadd x (fneg y)

/-! ## The formula evaluator -/

/-- The struct `ResultVolume` of `main.go`. -/
structure ResultVolume where
  SpecificVolumeLiquid : F64
  SpecificVolumeVapor : F64
deriving DecidableEq

/-- The function `getVolumes` of `main.go`. Its two results are the pointer
(`none` for `nil`) and the error (`none` for `nil`). Every operation rounds on its own,
as the compiler emits it for amd64 (no fused multiply-add). -/
def getVolumes (pressure : F64) : Option ResultVolume × Option String :=
  if fgt pressure (ofNat 10) || flt pressure (ofRatio 5 100) then
    (none, some "incorrect pressure")
  else
    let volLiquid := fdiv (fadd (fmul (ofNat 2450) pressure) (ofNat 10325)) (ofNat 9950000)
    let volVapor := fdiv (fsub (ofNat 299999825) (fmul (ofNat 29996500) pressure)) (ofNat 9950000)
    (some { SpecificVolumeLiquid := volLiquid, SpecificVolumeVapor := volVapor }, none)

/-! ## The evaluator on magnitudes

For a pressure `fin false k` in the accepted range every intermediate value of
`getVolumes` is positive and finite, so each step is one `roundK`. -/

/-- Magnitude of `float64(0.05)`, the lower bound of `getVolumes`: `0x3FA999999999999A`. -/
def kMin : Nat := 3602879701896397 * 2 ^ 1018

/-- Magnitude of `float64(10)`, the upper bound of `getVolumes`. -/
def kMax : Nat := 10 * 2 ^ 1074

/-- Magnitude of `2450*pressure`. -/
def mulLiquidK (k : Nat) : Nat := roundK (2450 * scale * k) scale

/-- Magnitude of `2450*pressure + 10325`. -/
def sumLiquidK (k : Nat) : Nat := roundK (mulLiquidK k + 10325 * scale) 1

/-- Magnitude of `volLiquid`. -/
def liquidK (k : Nat) : Nat := roundK (sumLiquidK k * scale) (9950000 * scale)

/-- Magnitude of `29996500*pressure`. -/
def mulVaporK (k : Nat) : Nat := roundK (29996500 * scale * k) scale

/-- Magnitude of `299999825 - 29996500*pressure`. -/
def subVaporK (k : Nat) : Nat := roundK (299999825 * scale - mulVaporK k) 1

/-- Magnitude of `volVapor`. -/
def vaporK (k : Nat) : Nat := roundK (subVaporK k * scale) (9950000 * scale)

/-! ## HTTP -/

/-- What the handlers read of an `*http.Request`: the method, the path the router matches,
and `r.URL.Query()` as the key, value pairs of the query string in their order. -/
structure Request where
  Method : String
  Path : String
  Query : List (String × String)

/-- The method `url.Values.Get`: the first value of the key, the empty string when the key
is absent. -/
def queryGet : List (String × String) → String → String
  | [], _ => ""
  | (k, v) :: rest, key => if k = key then v else queryGet rest key

/-- The method `http.Header.Set`: the value replaces whatever the key held. -/
def headerSet (h : List (String × String)) (key value : String) : List (String × String) :=
  h.filter (fun kv => kv.1 != key) ++ [(key, value)]

/-- The method `http.Header.Get`, with `none` for an absent key. -/
def headerGet : List (String × String) → String → Option String
  | [], _ => none
  | (k, v) :: rest, key => if k = key then some v else headerGet rest key

/-- The state of an `http.ResponseWriter`: the header map the handler edits, whether the
status line went out, and then the status, the headers as they were at that moment, and
the body bytes written so far. -/
structure ResponseWriter where
  header : List (String × String)
  wroteHeader : Bool
  status : Nat
  sent : List (String × String)
  body : String
deriving DecidableEq

/-- The writer net/http hands to the handler of a new request. -/
def newWriter : ResponseWriter :=
  { header := [], wroteHeader := false, status := 0, sent := [], body := "" }

/-- The call `w.Header().Set(key, value)`. -/
def ResponseWriter.setHeader (w : ResponseWriter) (key value : String) : ResponseWriter :=
  { w with header := headerSet w.header key value }

/-- The method `WriteHeader`: the first call fixes the status and the headers, a later call
changes nothing. -/
def ResponseWriter.WriteHeader (w : ResponseWriter) (code : Nat) : ResponseWriter :=
  if w.wroteHeader then w
  else { w with wroteHeader := true, status := code, sent := w.header }

/-- The method `Write`: sends status 200 first when no status went out yet. -/
def ResponseWriter.Write (w : ResponseWriter) (data : String) : ResponseWriter :=
  let w1 := w.WriteHeader 200
  { w1 with body := w1.body ++ data }

/-- What the client receives. -/
structure Response where
  status : Nat
  header : List (String × String)
  body : String
deriving DecidableEq

/-- The response once the handler has returned: net/http sends status 200 when the handler
wrote neither a status nor a body. -/
def finish (w : ResponseWriter) : Response :=
  let w1 := w.WriteHeader 200
  { status := w1.status, header := w1.sent, body := w1.body }

/-- A handler, as a function of the writer state. -/
abbrev Handler := ResponseWriter → Request → ResponseWriter

/-- The call `json.NewEncoder(w).Encode(&result)` up to the write: the bytes to send, or
`none` when encoding fails. encoding/json refuses NaN and the infinities
(`UnsupportedValueError`) and then writes nothing; a nil pointer encodes as `null`.
`formatFloat` stands for the library's rendering of a finite `float64`. -/
def jsonEncode (formatFloat : F64 → String) : Option ResultVolume → Option String
  | none => some "null\n"
  | some r =>
    if r.SpecificVolumeLiquid.isFinite && r.SpecificVolumeVapor.isFinite then
      some ("\x7b\"specific_volume_liquid\":" ++ formatFloat r.SpecificVolumeLiquid ++
        ",\"specific_volume_vapor\":" ++ formatFloat r.SpecificVolumeVapor ++ "\x7d\n")
    else none

/-- The handler registered for `/phase-change-diagram` in `main`. `parseFloat` stands for
`strconv.ParseFloat(s, 64)`, `none` when it returns an error. The handler drops the error
of `Encode`. -/
def phaseChangeDiagram (parseFloat : String → Option F64) (formatFloat : F64 → String) :
    Handler := fun w r =>
  let queryPressure := queryGet r.Query "pressure"
  match parseFloat queryPressure with
  | none => w.WriteHeader 500
  | some pressure =>
    match getVolumes pressure with
    | (_, some _) => w.WriteHeader 500
    | (result, none) =>
      match jsonEncode formatFloat result with
      | some data => w.Write data
      | none => w

/-- The four headers `routesConfig` sets, in the order of the source. -/
def setCors (w : ResponseWriter) : ResponseWriter :=
  (((w.setHeader "Access-Control-Allow-Origin" "*").setHeader
    "Access-Control-Allow-Methods" "GET, POST, PUT, DELETE, OPTIONS").setHeader
    "Access-Control-Allow-Headers" "Content-Type, Authorization").setHeader
    "Content-Type" "application/json"

/-- The function `routesConfig` of `main.go`. -/
def routesConfig (next : Handler) : Handler := fun w r =>
  let w1 := w.setHeader "Access-Control-Allow-Origin" "*"
  let w2 := w1.setHeader "Access-Control-Allow-Methods" "GET, POST, PUT, DELETE, OPTIONS"
  let w3 := w2.setHeader "Access-Control-Allow-Headers" "Content-Type, Authorization"
  let w4 := w3.setHeader "Content-Type" "application/json"
  if r.Method = "OPTIONS" then w4.WriteHeader 200
  else next w4 r

/-- The reply `http.NotFound` of the router for a path without a route. -/
def notFound (w : ResponseWriter) : ResponseWriter :=
  (((w.setHeader "Content-Type" "text/plain; charset=utf-8").setHeader
    "X-Content-Type-Options" "nosniff").WriteHeader 404).Write "404 page not found\n"

/-- The gorilla/mux router of `main` with its one route,
`r.HandleFunc("/phase-change-diagram", h).Methods("GET")`: the handler runs on a request
for that path with method GET; the path with another method gets 405, another path 404. -/
def router (h : Handler) : Handler := fun w r =>
  if r.Path = "/phase-change-diagram" then
    if r.Method = "GET" then h w r else w.WriteHeader 405
  else notFound w

/-- The response of the server of `main` (`Handler: rc`) to a request. -/
def respond (parseFloat : String → Option F64) (formatFloat : F64 → String)
    (r : Request) : Response :=
  finish (routesConfig (router (phaseChangeDiagram parseFloat formatFloat)) newWriter r)

/-- The headers of every response that went through `routesConfig` on a new writer. -/
def corsHeader : List (String × String) :=
  [("Access-Control-Allow-Origin", "*"),
   ("Access-Control-Allow-Methods", "GET, POST, PUT, DELETE, OPTIONS"),
   ("Access-Control-Allow-Headers", "Content-Type, Authorization"),
   ("Content-Type", "application/json")]

/-- A stand-in for `strconv.ParseFloat` that knows the one spelling `NaN`. -/
def parseOnlyNaN (s : String) : Option F64 := if s = "NaN" then some .nan else none

/-! ## Rounding: the facts the proofs use -/

theorem rneDiv_cases (N D : Nat) (hD : 0 < D) :
    ∃ q r, N = D * q + r ∧ r < D ∧
      ((rneDiv N D = q ∧ (2 * r < D ∨ (2 * r = D ∧ q % 2 = 0))) ∨
       (rneDiv N D = q + 1 ∧ (D < 2 * r ∨ (2 * r = D ∧ q % 2 = 1)))) := by
  refine ⟨N / D, N % D, (Nat.div_add_mod N D).symm, Nat.mod_lt N hD, ?_⟩
  unfold rneDiv
  simp only
  by_cases h1 : 2 * (N % D) < D
  · left; simp [h1]
  · by_cases h2 : D < 2 * (N % D)
    · right; simp [h1, h2]
    · have h3 : 2 * (N % D) = D := by omega
      by_cases h4 : N / D % 2 = 0
      · left; simp [h1, h2, h4, h3]
      · right; simp [h1, h2, h4]; omega

/-- The value `rneDiv N D` is within one half of `N / D`. -/
theorem rneDiv_near (N D : Nat) (hD : 0 < D) :
    2 * (rneDiv N D * D) ≤ 2 * N + D ∧ 2 * N ≤ 2 * (rneDiv N D * D) + D := by
  obtain ⟨q, r, hN, hr, h⟩ := rneDiv_cases N D hD
  rcases h with ⟨hM, h | ⟨h, _⟩⟩ | ⟨hM, h | ⟨h, _⟩⟩ <;> rw [hM, hN] <;> constructor <;> nlinarith

theorem rneDiv_tie_up (N D : Nat) (hD : 0 < D)
    (h : 2 * (rneDiv N D * D) = 2 * N + D) : rneDiv N D % 2 = 0 := by
  obtain ⟨q, r, hN, hr, hc⟩ := rneDiv_cases N D hD
  rcases hc with ⟨hM, hc⟩ | ⟨hM, hc⟩
  · rw [hM, hN] at h
    exfalso; nlinarith
  · rw [hM, hN] at h
    rw [hM]
    have : 2 * r = D := by nlinarith
    rcases hc with hc | hc <;> omega

theorem rneDiv_tie_down (N D : Nat) (hD : 0 < D)
    (h : 2 * N = 2 * (rneDiv N D * D) + D) : rneDiv N D % 2 = 0 := by
  obtain ⟨q, r, hN, hr, hc⟩ := rneDiv_cases N D hD
  rcases hc with ⟨hM, hc⟩ | ⟨hM, hc⟩
  · rw [hM, hN] at h
    rw [hM]
    have : 2 * r = D := by nlinarith
    rcases hc with hc | hc <;> omega
  · rw [hM, hN] at h
    exfalso; nlinarith

theorem rneDiv_le_of_le (N D Z : Nat) (hD : 0 < D) (h : N ≤ Z * D) : rneDiv N D ≤ Z := by
  have h1 := (rneDiv_near N D hD).1
  by_contra hc
  have h2 : Z + 1 ≤ rneDiv N D := by omega
  have h3 : (Z + 1) * D ≤ rneDiv N D * D := Nat.mul_le_mul_right D h2
  nlinarith

theorem le_rneDiv_of_le (N D Z : Nat) (hD : 0 < D) (h : Z * D ≤ N) : Z ≤ rneDiv N D := by
  have h1 := (rneDiv_near N D hD).2
  by_contra hc
  have h2 : rneDiv N D + 1 ≤ Z := by omega
  have h3 : (rneDiv N D + 1) * D ≤ Z * D := Nat.mul_le_mul_right D h2
  nlinarith

/-- Rounding to nearest even is monotone in the ratio. -/
theorem rneDiv_mono (N1 D1 N2 D2 : Nat) (h1 : 0 < D1) (h2 : 0 < D2)
    (h : N1 * D2 ≤ N2 * D1) : rneDiv N1 D1 ≤ rneDiv N2 D2 := by
  by_contra hc
  have hlt : rneDiv N2 D2 + 1 ≤ rneDiv N1 D1 := by omega
  obtain ⟨a1, a2⟩ := rneDiv_near N1 D1 h1
  obtain ⟨b1, b2⟩ := rneDiv_near N2 D2 h2
  set M1 := rneDiv N1 D1 with hM1
  set M2 := rneDiv N2 D2 with hM2
  have hD : 0 < D1 * D2 := Nat.mul_pos h1 h2
  -- (2 M1 - 1) D1 D2 ≤ 2 N1 D2 ≤ 2 N2 D1 ≤ (2 M2 + 1) D1 D2
  have e1 : 2 * (M1 * D1) * D2 ≤ (2 * N1 + D1) * D2 := Nat.mul_le_mul_right D2 a1
  have e2 : 2 * N2 * D1 ≤ (2 * (M2 * D2) + D2) * D1 := Nat.mul_le_mul_right D1 b2
  have e3 : 2 * M1 * (D1 * D2) ≤ (2 * M2 + 2) * (D1 * D2) := by nlinarith
  have e4 : 2 * M1 ≤ 2 * M2 + 2 := Nat.le_of_mul_le_mul_right e3 hD
  have e5 : M1 = M2 + 1 := by omega
  -- every inequality is an equality: both are ties
  have t1 : 2 * (M1 * D1) = 2 * N1 + D1 := by
    have : (2 * N1 + D1) * D2 ≤ 2 * (M1 * D1) * D2 := by rw [e5]; rw [e5] at e1; nlinarith
    have := Nat.le_of_mul_le_mul_right this h2
    omega
  have t2 : 2 * N2 = 2 * (M2 * D2) + D2 := by
    have : (2 * (M2 * D2) + D2) * D1 ≤ 2 * N2 * D1 := by rw [e5] at e1; nlinarith
    have := Nat.le_of_mul_le_mul_right this h1
    omega
  have p1 := rneDiv_tie_up N1 D1 h1 t1
  have p2 := rneDiv_tie_down N2 D2 h2 t2
  omega

theorem scaleExp_spec (fuel : Nat) : ∀ n d : Nat, 0 < d → n < d * 2 ^ (53 + fuel) →
    n < d * 2 ^ (53 + scaleExp fuel n d) ∧
      (scaleExp fuel n d ≠ 0 → d * 2 ^ (52 + scaleExp fuel n d) ≤ n) := by
  induction fuel with
  | zero =>
    intro n d _ h
    simpa [scaleExp] using h
  | succ f ih =>
    intro n d hd h
    unfold scaleExp
    by_cases hlt : n < d * 2 ^ 53
    · rw [if_pos hlt]
      exact ⟨hlt, fun h0 => absurd rfl h0⟩
    · rw [if_neg hlt]
      have e0 : d * 2 ^ (53 + (f + 1)) = 2 * d * 2 ^ (53 + f) := by ring
      obtain ⟨h1, h2⟩ := ih n (2 * d) (by omega) (by omega)
      have e1 : d * 2 ^ (53 + (scaleExp f n (2 * d) + 1))
          = 2 * d * 2 ^ (53 + scaleExp f n (2 * d)) := by ring
      have e2 : d * 2 ^ (52 + (scaleExp f n (2 * d) + 1))
          = 2 * d * 2 ^ (52 + scaleExp f n (2 * d)) := by ring
      refine ⟨by omega, fun _ => ?_⟩
      by_cases hj : scaleExp f n (2 * d) = 0
      · rw [hj]
        have : d * 2 ^ (52 + (0 + 1)) = d * 2 ^ 53 := by norm_num
        omega
      · have := h2 hj
        omega

theorem fuel_enough (n d : Nat) (hd : 0 < d) : n < d * 2 ^ (53 + n) := by
  have h1 : n < 2 ^ n := Nat.lt_two_pow n
  have h2 : 2 ^ n ≤ 2 ^ (53 + n) := Nat.pow_le_pow_right (by norm_num) (by omega)
  have h3 : 1 * 2 ^ (53 + n) ≤ d * 2 ^ (53 + n) := Nat.mul_le_mul_right _ hd
  omega

/-- Upper end of the binade found by `scaleExp`. -/
theorem scaleExp_lt (n d : Nat) (hd : 0 < d) : n < d * 2 ^ (53 + scaleExp n n d) :=
  (scaleExp_spec n n d hd (fuel_enough n d hd)).1

/-- Lower end of the binade found by `scaleExp`, above the subnormal range. -/
theorem scaleExp_le (n d : Nat) (hd : 0 < d) (h : scaleExp n n d ≠ 0) :
    d * 2 ^ (52 + scaleExp n n d) ≤ n :=
  (scaleExp_spec n n d hd (fuel_enough n d hd)).2 h

theorem scaleExp_le_of_lt (n d J : Nat) (hd : 0 < d) (h : n < d * 2 ^ (53 + J)) :
    scaleExp n n d ≤ J := by
  by_contra hc
  have hj : scaleExp n n d ≠ 0 := by omega
  have h1 := scaleExp_le n d hd hj
  have h2 : 2 ^ (53 + J) ≤ 2 ^ (52 + scaleExp n n d) :=
    Nat.pow_le_pow_right (by norm_num) (by omega)
  have h3 := Nat.mul_le_mul_left d h2
  omega

theorem le_scaleExp_of_le (n d J : Nat) (hd : 0 < d) (h : d * 2 ^ (52 + J) ≤ n) :
    J ≤ scaleExp n n d := by
  by_contra hc
  have h1 := scaleExp_lt n d hd
  have h2 : 2 ^ (53 + scaleExp n n d) ≤ 2 ^ (52 + J) :=
    Nat.pow_le_pow_right (by norm_num) (by omega)
  have h3 := Nat.mul_le_mul_left d h2
  omega

theorem scaleExp_mono (n1 d1 n2 d2 : Nat) (h1 : 0 < d1) (h2 : 0 < d2)
    (h : n1 * d2 ≤ n2 * d1) : scaleExp n1 n1 d1 ≤ scaleExp n2 n2 d2 := by
  by_contra hc
  have hj : scaleExp n1 n1 d1 ≠ 0 := by omega
  have lo := scaleExp_le n1 d1 h1 hj
  have hi := scaleExp_lt n2 d2 h2
  have hp : 2 ^ (53 + scaleExp n2 n2 d2) ≤ 2 ^ (52 + scaleExp n1 n1 d1) :=
    Nat.pow_le_pow_right (by norm_num) (by omega)
  have a1 : d1 * 2 ^ (52 + scaleExp n1 n1 d1) * d2 ≤ n1 * d2 := Nat.mul_le_mul_right d2 lo
  have a2 : n2 * d1 < d2 * 2 ^ (53 + scaleExp n2 n2 d2) * d1 :=
    Nat.mul_lt_mul_of_pos_right hi h1
  have a3 : d2 * 2 ^ (53 + scaleExp n2 n2 d2) * d1 ≤ d1 * 2 ^ (52 + scaleExp n1 n1 d1) * d2 := by
    have := Nat.mul_le_mul_left (d1 * d2) hp
    calc d2 * 2 ^ (53 + scaleExp n2 n2 d2) * d1
        = d1 * d2 * 2 ^ (53 + scaleExp n2 n2 d2) := by ring
      _ ≤ d1 * d2 * 2 ^ (52 + scaleExp n1 n1 d1) := this
      _ = d1 * 2 ^ (52 + scaleExp n1 n1 d1) * d2 := by ring
  omega

/-- Rounding to a double is monotone in the exact value. -/
theorem roundK_mono (n1 d1 n2 d2 : Nat) (h1 : 0 < d1) (h2 : 0 < d2)
    (h : n1 * d2 ≤ n2 * d1) : roundK n1 d1 ≤ roundK n2 d2 := by
  unfold roundK
  simp only
  have hj := scaleExp_mono n1 d1 n2 d2 h1 h2 h
  set j1 := scaleExp n1 n1 d1 with hj1
  set j2 := scaleExp n2 n2 d2 with hj2
  have p1 : 0 < d1 * 2 ^ j1 := Nat.mul_pos h1 (Nat.two_pow_pos _)
  have p2 : 0 < d2 * 2 ^ j2 := Nat.mul_pos h2 (Nat.two_pow_pos _)
  rcases Nat.eq_or_lt_of_le hj with e | l
  · rw [← e]
    apply Nat.mul_le_mul_right
    apply rneDiv_mono _ _ _ _ p1 (e ▸ p2)
    calc n1 * (d2 * 2 ^ j1) = n1 * d2 * 2 ^ j1 := by ring
      _ ≤ n2 * d1 * 2 ^ j1 := Nat.mul_le_mul_right _ h
      _ = n2 * (d1 * 2 ^ j1) := by ring
  · have hne : j2 ≠ 0 := by omega
    have lo := scaleExp_le n2 d2 h2 hne
    have hi := scaleExp_lt n1 d1 h1
    rw [← hj2] at lo
    rw [← hj1] at hi
    have m2 : 2 ^ 52 ≤ rneDiv n2 (d2 * 2 ^ j2) := by
      apply le_rneDiv_of_le _ _ _ p2
      calc 2 ^ 52 * (d2 * 2 ^ j2) = d2 * 2 ^ (52 + j2) := by ring
        _ ≤ n2 := lo
    have m1 : rneDiv n1 (d1 * 2 ^ j1) ≤ 2 ^ (52 + j2 - j1) := by
      apply rneDiv_le_of_le _ _ _ p1
      have e : 2 ^ (52 + j2 - j1) * (d1 * 2 ^ j1) = d1 * 2 ^ (52 + j2) := by
        have : 52 + j2 = (52 + j2 - j1) + j1 := by omega
        conv_rhs => rw [this, pow_add]
        ring
      rw [e]
      have hp : 2 ^ (53 + j1) ≤ 2 ^ (52 + j2) := Nat.pow_le_pow_right (by norm_num) (by omega)
      have := Nat.mul_le_mul_left d1 hp
      omega
    calc rneDiv n1 (d1 * 2 ^ j1) * 2 ^ j1 ≤ 2 ^ (52 + j2 - j1) * 2 ^ j1 :=
          Nat.mul_le_mul_right _ m1
      _ = 2 ^ 52 * 2 ^ j2 := by
          rw [← pow_add, ← pow_add]
          congr 1
          omega
      _ ≤ rneDiv n2 (d2 * 2 ^ j2) * 2 ^ j2 := Nat.mul_le_mul_right _ m2

/-- The rounding error is at most half the spacing of the binade. -/
theorem roundK_err (n d J : Nat) (hd : 0 < d) (h : n < d * 2 ^ (53 + J)) :
    |((roundK n d : Nat) : ℚ) - (n : ℚ) / d| ≤ (2 : ℚ) ^ J / 2 := by
  have hj := scaleExp_le_of_lt n d J hd h
  unfold roundK
  simp only
  set j := scaleExp n n d with hjd
  have pD : 0 < d * 2 ^ j := Nat.mul_pos hd (Nat.two_pow_pos _)
  obtain ⟨a, b⟩ := rneDiv_near n (d * 2 ^ j) pD
  set M := rneDiv n (d * 2 ^ j) with hM
  have a' : (2 : ℚ) * (M * (d * 2 ^ j)) ≤ 2 * n + d * 2 ^ j := by exact_mod_cast a
  have b' : (2 : ℚ) * n ≤ 2 * (M * (d * 2 ^ j)) + d * 2 ^ j := by exact_mod_cast b
  have hdq : (0 : ℚ) < d := by exact_mod_cast hd
  have hpow : (2 : ℚ) ^ j ≤ 2 ^ J := pow_le_pow_right₀ (by norm_num) hj
  have hx : (n : ℚ) = (n : ℚ) / d * d := by field_simp
  set x : ℚ := (n : ℚ) / d with hxd
  rw [hx] at a' b'
  have a2 : (2 : ℚ) * (M * 2 ^ j) ≤ 2 * x + 2 ^ j := by
    have : d * ((2 : ℚ) * (M * 2 ^ j)) ≤ d * (2 * x + 2 ^ j) := by nlinarith
    exact le_of_mul_le_mul_left this hdq
  have b2 : (2 : ℚ) * x ≤ 2 * (M * 2 ^ j) + 2 ^ j := by
    have : d * ((2 : ℚ) * x) ≤ d * (2 * (M * 2 ^ j) + 2 ^ j) := by nlinarith
    exact le_of_mul_le_mul_left this hdq
  push_cast
  rw [abs_le]
  constructor <;> linarith

/-- A rounded magnitude below the overflow threshold is that of a double. -/
theorem roundK_isRep (n d : Nat) (hd : 0 < d) (h : roundK n d < overflowK) :
    isRep (roundK n d) := by
  refine ⟨h, ?_⟩
  have hi := scaleExp_lt n d hd
  unfold roundK
  simp only
  set j := scaleExp n n d with hj
  have pD : 0 < d * 2 ^ j := Nat.mul_pos hd (Nat.two_pow_pos _)
  have hM : rneDiv n (d * 2 ^ j) ≤ 2 ^ 53 := by
    apply rneDiv_le_of_le _ _ _ pD
    have e : 2 ^ 53 * (d * 2 ^ j) = d * 2 ^ (53 + j) := by ring
    omega
  set M := rneDiv n (d * 2 ^ j) with hMd
  apply Nat.mod_eq_zero_of_dvd
  rcases Nat.eq_or_lt_of_le hM with e | l
  · have hk : M * 2 ^ j = 2 ^ (53 + j) := by rw [e, ← pow_add]
    rw [hk]
    have hlt : 2 ^ (53 + j) < 1 * 2 ^ (53 + (j + 1)) := by
      rw [one_mul]
      exact Nat.pow_lt_pow_right (by norm_num) (by omega)
    have hj2 := scaleExp_le_of_lt (2 ^ (53 + j)) 1 (j + 1) Nat.one_pos hlt
    exact pow_dvd_pow 2 (by omega)
  · have hlt : M * 2 ^ j < 1 * 2 ^ (53 + j) := by
      rw [one_mul, pow_add]
      exact Nat.mul_lt_mul_of_pos_right l (Nat.two_pow_pos _)
    have hj2 := scaleExp_le_of_lt (M * 2 ^ j) 1 j Nat.one_pos hlt
    exact Nat.dvd_trans (pow_dvd_pow 2 hj2) (Dvd.intro_left M rfl)

/-- Rounding leaves the magnitude of a double as it is. -/
theorem roundK_of_isRep (k d : Nat) (hd : 0 < d) (h : isRep k) : roundK (k * d) d = k := by
  have e1 := scaleExp_mono (k * d) d k 1 hd Nat.one_pos (by omega)
  have e2 := scaleExp_mono k 1 (k * d) d Nat.one_pos hd (by omega)
  have ej : scaleExp (k * d) (k * d) d = scaleExp k k 1 := by omega
  obtain ⟨m, hm⟩ := Nat.dvd_of_mod_eq_zero h.2
  unfold roundK
  simp only
  rw [ej]
  set j := scaleExp k k 1 with hj
  have pD : 0 < d * 2 ^ j := Nat.mul_pos hd (Nat.two_pow_pos _)
  have hn : k * d = d * 2 ^ j * m := by rw [hm]; ring
  have hq : rneDiv (k * d) (d * 2 ^ j) = m := by
    unfold rneDiv
    simp only
    rw [hn, Nat.mul_div_cancel_left m pD, Nat.mul_mod_right]
    simp [pD]
  rw [hq, hm, mul_comm]

theorem isRep_zero : isRep 0 := by decide

/-- Rounding gives a value a `float64` variable can hold. -/
theorem roundU_WF (neg : Bool) (n d : Nat) (hd : 0 < d) : (roundU neg n d).WF := by
  unfold roundU
  simp only
  by_cases h : roundK n d < overflowK
  · rw [if_pos h]
    exact roundK_isRep n d hd h
  · rw [if_neg h]
    trivial

/-! ## The operations on positive finite values -/

theorem scale_pos : 0 < scale := Nat.two_pow_pos _

theorem fmul_pos (a b : Nat) (h : roundK (a * b) scale < overflowK) :
    fmul (.fin false a) (.fin false b) = .fin false (roundK (a * b) scale) := by
  simp [fmul, roundU, h]

theorem fdiv_pos (a b : Nat) (hb : 0 < b) (h : roundK (a * scale) b < overflowK) :
    fdiv (.fin false a) (.fin false b) = .fin false (roundK (a * scale) b) := by
  have hb' : b ≠ 0 := by omega
  simp [fdiv, roundU, h, hb']

theorem fadd_pos (a b : Nat) (hb : 0 < b) (h : roundK (a + b) 1 < overflowK) :
    fadd (.fin false a) (.fin false b) = .fin false (roundK (a + b) 1) := by
  have h0 : ((a : Int) + (b : Int)) ≠ 0 := by omega
  have h1 : ¬ ((a : Int) + (b : Int) < 0) := by omega
  have h2 : ((a : Int) + (b : Int)).natAbs = a + b := by omega
  simp [fadd, signedK, roundU, h0, h1, h2, h]

theorem fsub_pos (a b : Nat) (hab : b < a) (h : roundK (a - b) 1 < overflowK) :
    fsub (.fin false a) (.fin false b) = .fin false (roundK (a - b) 1) := by
  have h0 : ((a : Int) + -(b : Int)) ≠ 0 := by omega
  have h1 : ¬ ((a : Int) + -(b : Int) < 0) := by omega
  have h2 : ((a : Int) + -(b : Int)).natAbs = a - b := by omega
  simp [fsub, fneg, fadd, signedK, roundU, h0, h1, h2, h]

/-! ## The operations stay within the doubles -/

theorem fmul_WF (x y : F64) : (fmul x y).WF := by
  cases x <;> cases y <;> simp only [fmul] <;> try trivial
  · split <;> trivial
  · split <;> trivial
  · exact roundU_WF _ _ _ scale_pos

theorem fdiv_WF (x y : F64) : (fdiv x y).WF := by
  cases x <;> cases y <;> simp only [fdiv] <;> try trivial
  · rename_i s a t b
    by_cases hb : b = 0
    · rw [if_pos hb]
      split <;> trivial
    · rw [if_neg hb]
      exact roundU_WF _ _ _ (Nat.pos_of_ne_zero hb)

theorem fadd_WF (x y : F64) : (fadd x y).WF := by
  cases x <;> cases y <;> simp only [fadd] <;> try trivial
  · split <;> trivial
  · split
    · exact isRep_zero
    · exact roundU_WF _ _ _ Nat.one_pos

theorem fsub_WF (x y : F64) : (fsub x y).WF := fadd_WF _ _

/-! ## Monotonicity of the steps -/

theorem mulLiquidK_mono {k1 k2 : Nat} (h : k1 ≤ k2) : mulLiquidK k1 ≤ mulLiquidK k2 :=
  roundK_mono _ _ _ _ scale_pos scale_pos
    (Nat.mul_le_mul_right _ (Nat.mul_le_mul_left _ h))

theorem sumLiquidK_mono {k1 k2 : Nat} (h : k1 ≤ k2) : sumLiquidK k1 ≤ sumLiquidK k2 :=
  roundK_mono _ _ _ _ Nat.one_pos Nat.one_pos
    (Nat.mul_le_mul_right _ (Nat.add_le_add_right (mulLiquidK_mono h) _))

theorem liquidK_mono {k1 k2 : Nat} (h : k1 ≤ k2) : liquidK k1 ≤ liquidK k2 :=
  roundK_mono _ _ _ _ (Nat.mul_pos (by norm_num) scale_pos) (Nat.mul_pos (by norm_num) scale_pos)
    (Nat.mul_le_mul_right _ (Nat.mul_le_mul_right _ (sumLiquidK_mono h)))

theorem mulVaporK_mono {k1 k2 : Nat} (h : k1 ≤ k2) : mulVaporK k1 ≤ mulVaporK k2 :=
  roundK_mono _ _ _ _ scale_pos scale_pos
    (Nat.mul_le_mul_right _ (Nat.mul_le_mul_left _ h))

theorem subVaporK_anti {k1 k2 : Nat} (h : k1 ≤ k2) : subVaporK k2 ≤ subVaporK k1 :=
  roundK_mono _ _ _ _ Nat.one_pos Nat.one_pos
    (Nat.mul_le_mul_right _ (Nat.sub_le_sub_left (mulVaporK_mono h) _))

theorem vaporK_anti {k1 k2 : Nat} (h : k1 ≤ k2) : vaporK k2 ≤ vaporK k1 :=
  roundK_mono _ _ _ _ (Nat.mul_pos (by norm_num) scale_pos) (Nat.mul_pos (by norm_num) scale_pos)
    (Nat.mul_le_mul_right _ (Nat.mul_le_mul_right _ (subVaporK_anti h)))

/-! ## Values at the two bounds -/

theorem const_bounds : ofRatio 5 100 = .fin false kMin ∧ ofNat 10 = .fin false kMax := by
  decide

theorem const_coeffs :
    ofNat 2450 = .fin false (2450 * scale) ∧ ofNat 10325 = .fin false (10325 * scale) ∧
    ofNat 9950000 = .fin false (9950000 * scale) ∧
    ofNat 299999825 = .fin false (299999825 * scale) ∧
    ofNat 29996500 = .fin false (29996500 * scale) := by
  decide

theorem liquid_ends :
    mulLiquidK kMax = 24500 * scale ∧ sumLiquidK kMax = 34825 * scale ∧
    liquidK kMax < overflowK := by
  decide

theorem vapor_ends :
    mulVaporK kMax = 299965000 * scale ∧ subVaporK kMin = 298500000 * scale ∧
    vaporK kMin = 30 * scale := by
  decide
/-- The accepted inputs other than NaN are the positive finite doubles between the bounds. -/
theorem valid_iff (p : F64) :
    (fle (ofRatio 5 100) p = true ∧ fle p (ofNat 10) = true) ↔
      ∃ k, p = .fin false k ∧ kMin ≤ k ∧ k ≤ kMax := by
  rw [const_bounds.1, const_bounds.2]
  constructor
  · rintro ⟨h1, h2⟩
    cases p with
    | nan => simp [fle] at h1
    | inf s => cases s <;> simp [fle] at h1 h2
    | fin s k =>
      cases s
      · refine ⟨k, rfl, ?_, ?_⟩
        · simpa [fle, signedK] using h1
        · simpa [fle, signedK] using h2
      · exfalso
        simp only [fle, signedK, decide_eq_true_eq] at h1
        have : 0 < kMin := by decide
        simp at h1
        omega
  · rintro ⟨k, rfl, h1, h2⟩
    simp [fle, signedK, h1, h2]

theorem getVolumes_fin (k : Nat) (h1 : kMin ≤ k) (h2 : k ≤ kMax) :
    getVolumes (.fin false k) =
      (some { SpecificVolumeLiquid := .fin false (liquidK k),
              SpecificVolumeVapor := .fin false (vaporK k) }, none) := by
  obtain ⟨cA, cB, cC, cD, cE⟩ := const_coeffs
  obtain ⟨eA, eB, eC⟩ := liquid_ends
  obtain ⟨vA, vB, vC⟩ := vapor_ends
  have big : 300000000 * scale < overflowK := by decide
  have sp := scale_pos
  have a1 : mulLiquidK k < overflowK := by
    have := mulLiquidK_mono h2; omega
  have a2 : sumLiquidK k < overflowK := by
    have := sumLiquidK_mono h2; omega
  have a3 : liquidK k < overflowK := by
    have := liquidK_mono h2; omega
  have b1 : mulVaporK k ≤ 299965000 * scale := by
    have := mulVaporK_mono h2; omega
  have b2 : subVaporK k ≤ 298500000 * scale := by
    have := subVaporK_anti h1; omega
  have b3 : vaporK k ≤ 30 * scale := by
    have := vaporK_anti h1; omega
  have g1 : fgt (.fin false k) (.fin false kMax) = false := by
    simp [fgt, flt, signedK, h2]
  have g2 : flt (.fin false k) (.fin false kMin) = false := by
    simp [flt, signedK, h1]
  unfold getVolumes
  rw [const_bounds.1, const_bounds.2, g1, g2, cA, cB, cC, cD, cE]
  have m1 : fmul (.fin false (2450 * scale)) (.fin false k) = .fin false (mulLiquidK k) :=
    fmul_pos _ _ a1
  have m2 : fadd (.fin false (mulLiquidK k)) (.fin false (10325 * scale))
      = .fin false (sumLiquidK k) := fadd_pos _ _ (by omega) a2
  have m3 : fdiv (.fin false (sumLiquidK k)) (.fin false (9950000 * scale))
      = .fin false (liquidK k) := fdiv_pos _ _ (by omega) a3
  have n1 : fmul (.fin false (29996500 * scale)) (.fin false k) = .fin false (mulVaporK k) :=
    fmul_pos _ _ (by show mulVaporK k < overflowK; omega)
  have n2 : fsub (.fin false (299999825 * scale)) (.fin false (mulVaporK k))
      = .fin false (subVaporK k) :=
    fsub_pos _ _ (by omega) (by show subVaporK k < overflowK; omega)
  have n3 : fdiv (.fin false (subVaporK k)) (.fin false (9950000 * scale))
      = .fin false (vaporK k) :=
    fdiv_pos _ _ (by omega) (by show vaporK k < overflowK; omega)
  simp [m1, m2, m3, n1, n2, n3]

/-- Both volumes of every result of `getVolumes` are values a `float64` can hold. -/
theorem getVolumes_WF (p : F64) (r : ResultVolume) (h : (getVolumes p).1 = some r) :
    r.SpecificVolumeLiquid.WF ∧ r.SpecificVolumeVapor.WF := by
  unfold getVolumes at h
  split at h
  · simp at h
  · simp only [Option.some.injEq] at h
    subst h
    exact ⟨fdiv_WF _ _, fdiv_WF _ _⟩

theorem scale_cast : ((scale : Nat) : ℚ) = (2 : ℚ) ^ 1074 := by
  unfold scale; norm_cast

theorem toRat_fin_pos (k : Nat) : (F64.fin false k).toRat = (k : ℚ) / (2 : ℚ) ^ 1074 := by
  simp [F64.toRat, signedK]

/-- Accumulated rounding error of `volLiquid`, in units. -/
theorem liquidK_err (k : Nat) (h2 : k ≤ kMax) :
    |(liquidK k : ℚ) - (2450 * (k : ℚ) + 10325 * (2 : ℚ) ^ 1074) / 9950000|
      ≤ (2 : ℚ) ^ 1074 / 10 ^ 18 := by
  obtain ⟨eA, eB, _⟩ := liquid_ends
  have sp := scale_pos
  have c1 : 2450 * scale * kMax < scale * 2 ^ (53 + 1036) := by decide
  have c2 : 24500 * scale + 10325 * scale < 1 * 2 ^ (53 + 1037) := by decide
  have c3 : 34825 * scale * scale < 9950000 * scale * 2 ^ (53 + 1013) := by decide
  have hA := mulLiquidK_mono h2
  have hB := sumLiquidK_mono h2
  have b1 : 2450 * scale * k < scale * 2 ^ (53 + 1036) :=
    lt_of_le_of_lt (Nat.mul_le_mul_left _ h2) c1
  have b2 : mulLiquidK k + 10325 * scale < 1 * 2 ^ (53 + 1037) := by omega
  have b3 : sumLiquidK k * scale < 9950000 * scale * 2 ^ (53 + 1013) :=
    lt_of_le_of_lt (Nat.mul_le_mul_right _ (by omega)) c3
  have e1 := roundK_err _ _ 1036 sp b1
  have e2 := roundK_err _ _ 1037 Nat.one_pos b2
  have e3 := roundK_err _ _ 1013 (Nat.mul_pos (by norm_num) sp) b3
  change |(mulLiquidK k : ℚ) - _| ≤ _ at e1
  change |(sumLiquidK k : ℚ) - _| ≤ _ at e2
  change |(liquidK k : ℚ) - _| ≤ _ at e3
  push_cast at e1 e2 e3
  rw [scale_cast] at e1 e2 e3
  set u : ℚ := (2 : ℚ) ^ 1074 with hu
  have up : 0 < u := by positivity
  have p1 : (2 : ℚ) ^ 1036 / 2 = u / 2 ^ 39 := by rw [hu]; norm_num
  have p2 : (2 : ℚ) ^ 1037 / 2 = u / 2 ^ 38 := by rw [hu]; norm_num
  have p3 : (2 : ℚ) ^ 1013 / 2 = u / 2 ^ 62 := by rw [hu]; norm_num
  have q1 : (2450 : ℚ) * u * k / u = 2450 * k := by field_simp; ring
  have q3 : (sumLiquidK k : ℚ) * u / (9950000 * u) = sumLiquidK k / 9950000 := by
    field_simp; ring
  rw [p1, q1] at e1
  rw [p2] at e2
  rw [p3, q3] at e3
  simp only [div_one] at e2
  rw [abs_le] at e1 e2 e3 ⊢
  obtain ⟨e1a, e1b⟩ := e1
  obtain ⟨e2a, e2b⟩ := e2
  obtain ⟨e3a, e3b⟩ := e3
  constructor <;> linarith

/-- Accumulated rounding error of `volVapor`, in units. -/
theorem vaporK_err (k : Nat) (h1 : kMin ≤ k) (h2 : k ≤ kMax) :
    |(vaporK k : ℚ) - (299999825 * (2 : ℚ) ^ 1074 - 29996500 * (k : ℚ)) / 9950000|
      ≤ (2 : ℚ) ^ 1074 / 10 ^ 14 := by
  obtain ⟨vA, vB, _⟩ := vapor_ends
  have sp := scale_pos
  have c1 : 29996500 * scale * kMax < scale * 2 ^ (53 + 1050) := by decide
  have c2 : 299999825 * scale < 1 * 2 ^ (53 + 1050) := by decide
  have c3 : 298500000 * scale * scale < 9950000 * scale * 2 ^ (53 + 1026) := by decide
  have hA := mulVaporK_mono h2
  have hB := subVaporK_anti h1
  have b1 : 29996500 * scale * k < scale * 2 ^ (53 + 1050) :=
    lt_of_le_of_lt (Nat.mul_le_mul_left _ h2) c1
  have b2 : 299999825 * scale - mulVaporK k < 1 * 2 ^ (53 + 1050) := by omega
  have b3 : subVaporK k * scale < 9950000 * scale * 2 ^ (53 + 1026) :=
    lt_of_le_of_lt (Nat.mul_le_mul_right _ (by omega)) c3
  have e1 := roundK_err _ _ 1050 sp b1
  have e2 := roundK_err _ _ 1050 Nat.one_pos b2
  have e3 := roundK_err _ _ 1026 (Nat.mul_pos (by norm_num) sp) b3
  change |(mulVaporK k : ℚ) - _| ≤ _ at e1
  change |(subVaporK k : ℚ) - _| ≤ _ at e2
  change |(vaporK k : ℚ) - _| ≤ _ at e3
  have hsub : mulVaporK k ≤ 299999825 * scale := by omega
  rw [Nat.cast_sub hsub] at e2
  push_cast at e1 e2 e3
  rw [scale_cast] at e1 e2 e3
  set u : ℚ := (2 : ℚ) ^ 1074 with hu
  have up : 0 < u := by positivity
  have p1 : (2 : ℚ) ^ 1050 / 2 = u / 2 ^ 25 := by rw [hu]; norm_num
  have p3 : (2 : ℚ) ^ 1026 / 2 = u / 2 ^ 49 := by rw [hu]; norm_num
  have q1 : (29996500 : ℚ) * u * k / u = 29996500 * k := by field_simp; ring
  have q3 : (subVaporK k : ℚ) * u / (9950000 * u) = subVaporK k / 9950000 := by
    field_simp; ring
  rw [p1, q1] at e1
  rw [p1] at e2
  rw [p3, q3] at e3
  simp only [div_one] at e2
  rw [abs_le] at e1 e2 e3 ⊢
  obtain ⟨e1a, e1b⟩ := e1
  obtain ⟨e2a, e2b⟩ := e2
  obtain ⟨e3a, e3b⟩ := e3
  constructor <;> linarith

theorem abs_div_scale (x y e u : ℚ) (hu : 0 < u) (h : |x - y| ≤ u * e) :
    |x / u - y / u| ≤ e := by
  rw [← sub_div, abs_div, abs_of_pos hu, div_le_iff₀ hu]
  linarith

theorem rescale_add (a b c k u : ℚ) (hu : u ≠ 0) :
    (a * (k / u) + b) / c = (a * k + b * u) / c / u := by
  have : (a * k + b * u) / u = a * (k / u) + b := by field_simp
  rw [div_right_comm, this]

theorem rescale_sub (a b c k u : ℚ) (hu : u ≠ 0) :
    (b - a * (k / u)) / c = (b * u - a * k) / c / u := by
  have : (b * u - a * k) / u = b - a * (k / u) := by field_simp
  rw [div_right_comm, this]

/-- C1: for every pressure p with 0.05 <= p <= 10, getVolumes returns no error and the two
volumes are the two expressions of the source, finite doubles, and within floating-point
tolerance of the exact values (2450p + 10325)/9950000 and (299999825 - 29996500p)/9950000:
1e-18 for the liquid volume and 1e-14 for the vapor volume. -/
theorem C1_getVolumes_in_range (p : F64)
    (hlo : fle (ofRatio 5 100) p = true) (hhi : fle p (ofNat 10) = true) :
    ∃ r : ResultVolume, getVolumes p = (some r, none) ∧
      r.SpecificVolumeLiquid
        = fdiv (fadd (fmul (ofNat 2450) p) (ofNat 10325)) (ofNat 9950000) ∧
      r.SpecificVolumeVapor
        = fdiv (fsub (ofNat 299999825) (fmul (ofNat 29996500) p)) (ofNat 9950000) ∧
      r.SpecificVolumeLiquid.isFinite = true ∧ r.SpecificVolumeVapor.isFinite = true ∧
      r.SpecificVolumeLiquid.WF ∧ r.SpecificVolumeVapor.WF ∧
      |r.SpecificVolumeLiquid.toRat - (2450 * p.toRat + 10325) / 9950000| ≤ 1 / 10 ^ 18 ∧
      |r.SpecificVolumeVapor.toRat - (299999825 - 29996500 * p.toRat) / 9950000|
        ≤ 1 / 10 ^ 14 := by
  obtain ⟨k, rfl, h1, h2⟩ := (valid_iff p).1 ⟨hlo, hhi⟩
  have hg := getVolumes_fin k h1 h2
  have hsrc : getVolumes (.fin false k) =
      (some { SpecificVolumeLiquid :=
                fdiv (fadd (fmul (ofNat 2450) (.fin false k)) (ofNat 10325)) (ofNat 9950000),
              SpecificVolumeVapor :=
                fdiv (fsub (ofNat 299999825) (fmul (ofNat 29996500) (.fin false k)))
                  (ofNat 9950000) }, none) := by
    have g1 : fgt (.fin false k) (.fin false kMax) = false := by
      simp [fgt, flt, signedK, h2]
    have g2 : flt (.fin false k) (.fin false kMin) = false := by
      simp [flt, signedK, h1]
    unfold getVolumes
    rw [const_bounds.1, const_bounds.2, g1, g2]
    rfl
  have hfields := hg.symm.trans hsrc
  simp only [Prod.mk.injEq, Option.some.injEq, ResultVolume.mk.injEq, and_true] at hfields
  have hwf := getVolumes_WF (.fin false k) _ (by rw [hg])
  refine ⟨_, hg, hfields.1, hfields.2, rfl, rfl, hwf.1, hwf.2, ?_, ?_⟩
  · show |(F64.fin false (liquidK k)).toRat - _| ≤ _
    rw [toRat_fin_pos, toRat_fin_pos]
    have := abs_div_scale _ _ (1 / 10 ^ 18) ((2 : ℚ) ^ 1074) (by positivity)
      (le_trans (liquidK_err k h2) (le_of_eq (by ring)))
    have e : (2450 * ((k : ℚ) / 2 ^ 1074) + 10325) / 9950000
        = (2450 * (k : ℚ) + 10325 * 2 ^ 1074) / 9950000 / 2 ^ 1074 := by
      exact rescale_add _ _ _ _ _ (by positivity)
    rw [e]
    exact this
  · show |(F64.fin false (vaporK k)).toRat - _| ≤ _
    rw [toRat_fin_pos, toRat_fin_pos]
    have := abs_div_scale _ _ (1 / 10 ^ 14) ((2 : ℚ) ^ 1074) (by positivity)
      (le_trans (vaporK_err k h1 h2) (le_of_eq (by ring)))
    have e : (299999825 - 29996500 * ((k : ℚ) / 2 ^ 1074)) / 9950000
        = (299999825 * 2 ^ 1074 - 29996500 * (k : ℚ)) / 9950000 / 2 ^ 1074 := by
      exact rescale_sub _ _ _ _ _ (by positivity)
    rw [e]
    exact this

theorem C1_witness :
    ∃ r : ResultVolume, getVolumes (ofNat 5) = (some r, none) ∧
      r.SpecificVolumeLiquid
        = fdiv (fadd (fmul (ofNat 2450) (ofNat 5)) (ofNat 10325)) (ofNat 9950000) ∧
      r.SpecificVolumeVapor
        = fdiv (fsub (ofNat 299999825) (fmul (ofNat 29996500) (ofNat 5))) (ofNat 9950000) ∧
      r.SpecificVolumeLiquid.isFinite = true ∧ r.SpecificVolumeVapor.isFinite = true ∧
      r.SpecificVolumeLiquid.WF ∧ r.SpecificVolumeVapor.WF ∧
      |r.SpecificVolumeLiquid.toRat - (2450 * (ofNat 5).toRat + 10325) / 9950000|
        ≤ 1 / 10 ^ 18 ∧
      |r.SpecificVolumeVapor.toRat - (299999825 - 29996500 * (ofNat 5).toRat) / 9950000|
        ≤ 1 / 10 ^ 14 :=
  C1_getVolumes_in_range (ofNat 5) (by decide) (by decide)

/-- A finite double of magnitude at least `2^(52+J)` is a multiple of `2^J`. -/
theorem isRep_dvd (k J : Nat) (h : isRep k) (hk : 2 ^ (52 + J) ≤ k) : 2 ^ J ∣ k := by
  have hj : J ≤ scaleExp k k 1 := le_scaleExp_of_le k 1 J Nat.one_pos (by simpa using hk)
  exact Nat.dvd_trans (pow_dvd_pow 2 hj) (Nat.dvd_of_mod_eq_zero h.2)

/-- The largest double below 10 is `10 - 2^-49`. -/
theorem isRep_lt_kMax (k : Nat) (h : isRep k) (hk : k < kMax) : k ≤ kMax - 2 ^ 1025 := by
  by_cases hs : k < 2 ^ (52 + 1025)
  · have : 2 ^ (52 + 1025) ≤ kMax - 2 ^ 1025 := by decide
    omega
  · obtain ⟨m, hm⟩ := isRep_dvd k 1025 h (by omega)
    have e : kMax = 2 ^ 1025 * (10 * 2 ^ 49) := by decide
    have e' : kMax - 2 ^ 1025 = 2 ^ 1025 * (10 * 2 ^ 49 - 1) := by decide
    rw [e'] 
    rw [e, hm] at hk
    rw [hm]
    have hm' : m < 10 * 2 ^ 49 := Nat.lt_of_mul_lt_mul_left hk
    exact Nat.mul_le_mul_left _ (by omega)

/-- No double lies in `[0.05, float64(0.05))`: a double that is at least 1/20 as a real
number is at least `float64(0.05)`. -/
theorem isRep_ge_kMin (k : Nat) (h : isRep k) (hk : 2 ^ 1074 ≤ 20 * k) : kMin ≤ k := by
  have hs : 2 ^ (52 + 1017) ≤ k := by
    have : 20 * 2 ^ (52 + 1017) ≤ 2 ^ 1074 := by decide
    omega
  obtain ⟨m, hm⟩ := isRep_dvd k 1017 h hs
  have e : kMin = 2 ^ 1017 * 7205759403792794 := by decide
  have e' : 2 ^ 1074 = 2 ^ 1017 * 2 ^ 57 := by rw [← pow_add]
  rw [e, hm]
  rw [e', hm] at hk
  have h3 : 2 ^ 1017 * 2 ^ 57 ≤ 2 ^ 1017 * (20 * m) := by
    calc 2 ^ 1017 * 2 ^ 57 ≤ 20 * (2 ^ 1017 * m) := hk
      _ = 2 ^ 1017 * (20 * m) := by ring
  have h4 : 2 ^ 57 ≤ 20 * m := Nat.le_of_mul_le_mul_left h3 (Nat.two_pow_pos _)
  exact Nat.mul_le_mul_left _ (by omega)

/-- The range test of `getVolumes` reads the same on real numbers: a double is between
`float64(0.05)` and `float64(10)` exactly when its value is between 1/20 and 10. -/
theorem valid_iff_real (p : F64) (hwf : p.WF) (hfin : p.isFinite = true) :
    (fle (ofRatio 5 100) p = true ∧ fle p (ofNat 10) = true) ↔
      ((5 : ℚ) / 100 ≤ p.toRat ∧ p.toRat ≤ 10) := by
  rw [valid_iff]
  cases p with
  | nan => simp [F64.isFinite] at hfin
  | inf s => simp [F64.isFinite] at hfin
  | fin s k =>
    have hu : (0 : ℚ) < 2 ^ 1074 := by positivity
    have hkMin : 2 ^ 1074 ≤ 20 * kMin := by decide
    have hkMax : kMax = 10 * 2 ^ 1074 := rfl
    cases s
    · rw [toRat_fin_pos]
      constructor
      · rintro ⟨k', hk', h1, h2⟩
        have : k = k' := by injection hk'
        subst this
        have h1' : ((2 : ℕ) ^ 1074 : ℚ) ≤ ((20 * k : ℕ) : ℚ) := by
          exact_mod_cast le_trans hkMin (Nat.mul_le_mul_left 20 h1)
        have h2' : ((k : ℕ) : ℚ) ≤ ((10 * 2 ^ 1074 : ℕ) : ℚ) := by
          exact_mod_cast hkMax ▸ h2
        push_cast at h1' h2'
        constructor
        · rw [div_le_div_iff₀ (by norm_num) hu]; linarith
        · rw [div_le_iff₀ hu]; linarith
      · rintro ⟨h1, h2⟩
        rw [div_le_div_iff₀ (by norm_num) hu] at h1
        rw [div_le_iff₀ hu] at h2
        have h1' : ((2 : ℕ) ^ 1074 : ℚ) ≤ ((20 * k : ℕ) : ℚ) := by push_cast; linarith
        have h2' : ((k : ℕ) : ℚ) ≤ ((10 * 2 ^ 1074 : ℕ) : ℚ) := by push_cast; linarith
        have g1 : 2 ^ 1074 ≤ 20 * k := by exact_mod_cast h1'
        have g2 : k ≤ 10 * 2 ^ 1074 := by exact_mod_cast h2'
        exact ⟨k, rfl, isRep_ge_kMin k hwf g1, g2⟩
    · constructor
      · rintro ⟨k', hk', _, _⟩
        simp at hk'
      · rintro ⟨h1, _⟩
        exfalso
        have : (F64.fin true k).toRat ≤ 0 := by
          simp only [F64.toRat, signedK, if_true]
          apply div_nonpos_of_nonpos_of_nonneg _ hu.le
          push_cast
          simp
        linarith

/-- C2: for every pressure p with p < 0.05 or p > 10, getVolumes returns the error and a nil
result; the bounds 0.05 and 10 themselves are accepted, and 0.04 and 10.01 are rejected. -/
theorem C2_getVolumes_out_of_range (p : F64)
    (h : flt p (ofRatio 5 100) = true ∨ fgt p (ofNat 10) = true) :
    getVolumes p = (none, some "incorrect pressure") ∧
      (getVolumes (ofRatio 5 100)).2 = none ∧ (getVolumes (ofRatio 5 100)).1 ≠ none ∧
      (getVolumes (ofNat 10)).2 = none ∧ (getVolumes (ofNat 10)).1 ≠ none ∧
      getVolumes (ofRatio 4 100) = (none, some "incorrect pressure") ∧
      getVolumes (ofRatio 1001 100) = (none, some "incorrect pressure") := by
  refine ⟨?_, by decide, by decide, by decide, by decide, by decide, by decide⟩
  unfold getVolumes
  rcases h with h | h <;> simp [h]

theorem C2_witness :
    getVolumes (F64.inf false) = (none, some "incorrect pressure") ∧
      (getVolumes (ofRatio 5 100)).2 = none ∧ (getVolumes (ofRatio 5 100)).1 ≠ none ∧
      (getVolumes (ofNat 10)).2 = none ∧ (getVolumes (ofNat 10)).1 ≠ none ∧
      getVolumes (ofRatio 4 100) = (none, some "incorrect pressure") ∧
      getVolumes (ofRatio 1001 100) = (none, some "incorrect pressure") :=
  C2_getVolumes_out_of_range (F64.inf false) (Or.inr (by decide))

/-- C6, counterexample: `float64(0.05)` and the next double above it are both accepted and
give the same two volumes, so neither volume is strictly monotone. -/
theorem C6_strict_monotonicity_fails :
    (ofRatio 5 100).WF ∧ (F64.fin false (kMin + 2 ^ 1017)).WF ∧
      fle (ofRatio 5 100) (ofRatio 5 100) = true ∧
      flt (ofRatio 5 100) (F64.fin false (kMin + 2 ^ 1017)) = true ∧
      fle (F64.fin false (kMin + 2 ^ 1017)) (ofNat 10) = true ∧
      getVolumes (ofRatio 5 100) =
        (some { SpecificVolumeLiquid := ofRatio 105 100000,
                SpecificVolumeVapor := ofNat 30 }, none) ∧
      getVolumes (F64.fin false (kMin + 2 ^ 1017)) =
        (some { SpecificVolumeLiquid := ofRatio 105 100000,
                SpecificVolumeVapor := ofNat 30 }, none) ∧
      flt (ofRatio 105 100000) (ofRatio 105 100000) = false ∧
      fgt (ofNat 30) (ofNat 30) = false := by
  decide

/-- C6, amended: for pressures p < q both in [0.05, 10] the liquid volume of p is at most
that of q and the vapor volume of p is at least that of q. -/
theorem C6_getVolumes_monotone (p q : F64)
    (hp : fle (ofRatio 5 100) p = true) (hpq : flt p q = true)
    (hq : fle q (ofNat 10) = true) :
    ∃ rp rq : ResultVolume, getVolumes p = (some rp, none) ∧ getVolumes q = (some rq, none) ∧
      fle rp.SpecificVolumeLiquid rq.SpecificVolumeLiquid = true ∧
      fle rq.SpecificVolumeVapor rp.SpecificVolumeVapor = true := by
  rw [const_bounds.1] at hp
  rw [const_bounds.2] at hq
  have hpos : 0 < kMin := by decide
  cases p with
  | nan => simp [fle] at hp
  | inf s =>
    cases q with
    | nan => simp [fle] at hq
    | inf t => cases t <;> simp [fle] at hq; cases s <;> simp [fle, flt] at hp hpq
    | fin t kq => cases s <;> simp [fle, flt] at hp hpq
  | fin s kp =>
    cases q with
    | nan => simp [fle] at hq
    | inf t => cases t <;> simp [fle, flt] at hq hpq
    | fin t kq =>
      cases s
      · cases t
        · simp only [fle, flt, signedK, decide_eq_true_eq, Bool.false_eq_true, if_false,
            Nat.cast_le, Nat.cast_lt] at hp hpq hq
          have e1 := getVolumes_fin kp hp (by omega)
          have e2 := getVolumes_fin kq (by omega) hq
          refine ⟨_, _, e1, e2, ?_, ?_⟩
          · simp only [fle, signedK, decide_eq_true_eq, Bool.false_eq_true, if_false,
              Nat.cast_le]
            exact liquidK_mono (by omega)
          · simp only [fle, signedK, decide_eq_true_eq, Bool.false_eq_true, if_false,
              Nat.cast_le]
            exact vaporK_anti (by omega)
        · simp only [fle, flt, signedK, decide_eq_true_eq, Bool.false_eq_true, if_false,
            if_true, Nat.cast_le] at hp hpq hq
          omega
      · simp only [fle, signedK, decide_eq_true_eq, Bool.false_eq_true, if_false,
          if_true] at hp
        omega

theorem C6_witness :
    ∃ rp rq : ResultVolume, getVolumes (ofRatio 5 100) = (some rp, none) ∧
      getVolumes (ofNat 10) = (some rq, none) ∧
      fle rp.SpecificVolumeLiquid rq.SpecificVolumeLiquid = true ∧
      fle rq.SpecificVolumeVapor rp.SpecificVolumeVapor = true :=
  C6_getVolumes_monotone (ofRatio 5 100) (ofNat 10) (by decide) (by decide) (by decide)

theorem toRat_ofNat_30 : (ofNat 30).toRat = 30 := by
  have e : ofNat 30 = .fin false (30 * scale) := by decide
  rw [e, toRat_fin_pos]
  push_cast
  rw [scale_cast]
  have hu : ((2 : ℚ) ^ 1074) ≠ 0 := by positivity
  field_simp

/-- C7, at the failing input: NaN passes the range test of `getVolumes` (both comparisons
are false on NaN), and both volumes of the result are NaN. -/
theorem C7_nan_passes_validation :
    F64.WF .nan ∧
      getVolumes .nan =
        (some { SpecificVolumeLiquid := .nan, SpecificVolumeVapor := .nan }, none) ∧
      F64.isFinite .nan = false := by
  decide

/-- C8, counterexample: at p = 0.05 the vapor volume is exactly 30, which is neither the
double computed from (299999825 - 1499.825)/9950000 nor within 0.1 of that number. -/
theorem C8_vapor_is_not_30_15 :
    getVolumes (ofRatio 5 100) =
        (some { SpecificVolumeLiquid := ofRatio 105 100000,
                SpecificVolumeVapor := ofNat 30 }, none) ∧
      ofNat 30 ≠ fdiv (fsub (ofNat 299999825) (ofRatio 1499825 1000)) (ofNat 9950000) ∧
      ¬ |(ofNat 30).toRat - (299999825 - 1499825 / 1000) / 9950000| ≤ 1 / 10 := by
  refine ⟨by decide, by decide, ?_⟩
  rw [toRat_ofNat_30]
  norm_num [abs_le]

/-- C8, amended: at the lower bound p = 0.05 getVolumes succeeds and returns
liquid = (2450*0.05 + 10325)/9950000 = 10447.5/9950000 = 0.00105 and
vapor = (299999825 - 1499825)/9950000 = 298500000/9950000 = 30. -/
theorem C8_lower_bound_values :
    getVolumes (ofRatio 5 100) =
        (some { SpecificVolumeLiquid := ofRatio 105 100000,
                SpecificVolumeVapor := ofNat 30 }, none) ∧
      fmul (ofNat 2450) (ofRatio 5 100) = ofRatio 1225 10 ∧
      fadd (ofRatio 1225 10) (ofNat 10325) = ofRatio 104475 10 ∧
      fdiv (ofRatio 104475 10) (ofNat 9950000) = ofRatio 105 100000 ∧
      fmul (ofNat 29996500) (ofRatio 5 100) = ofNat 1499825 ∧
      fsub (ofNat 299999825) (ofNat 1499825) = ofNat 298500000 ∧
      fdiv (ofNat 298500000) (ofNat 9950000) = ofNat 30 ∧
      (ofNat 30).toRat = 30 :=
  ⟨by decide, by decide, by decide, by decide, by decide, by decide, by decide,
    toRat_ofNat_30⟩

/-- C9: at the upper bound p = 10 getVolumes succeeds, liquid = (24500 + 10325)/9950000 =
34825/9950000 and vapor = (299999825 - 299965000)/9950000 = 34825/9950000, the same double,
which is `float64(0.0035)`. -/
theorem C9_upper_bound_values :
    getVolumes (ofNat 10) =
        (some { SpecificVolumeLiquid := ofRatio 35 10000,
                SpecificVolumeVapor := ofRatio 35 10000 }, none) ∧
      fmul (ofNat 2450) (ofNat 10) = ofNat 24500 ∧
      fadd (ofNat 24500) (ofNat 10325) = ofNat 34825 ∧
      fmul (ofNat 29996500) (ofNat 10) = ofNat 299965000 ∧
      fsub (ofNat 299999825) (ofNat 299965000) = ofNat 34825 ∧
      fdiv (ofNat 34825) (ofNat 9950000) = ofRatio 35 10000 ∧
      feq (ofRatio 35 10000) (ofRatio 35 10000) = true := by
  decide

theorem range_ends :
    ofNat 0 = .fin false 0 ∧ ofRatio 105 100000 = .fin false (liquidK kMin) ∧
      ofRatio 35 10000 = .fin false (liquidK kMax) ∧ vaporK kMax = liquidK kMax ∧
      ofNat 30 = .fin false (vaporK kMin) ∧ 0 < liquidK kMin ∧
      liquidK kMax < vaporK (kMax - 2 ^ 1025) := by
  decide

/-- C10: for every pressure p in [0.05, 10] both volumes are strictly positive, the vapor
volume is at least the liquid volume with equality exactly when p = 10, the liquid volume
lies between `float64(0.00105)` and `float64(0.0035)` and the vapor volume between
`float64(0.0035)` and 30. -/
theorem C10_volume_ranges (p : F64) (hwf : p.WF)
    (hlo : fle (ofRatio 5 100) p = true) (hhi : fle p (ofNat 10) = true) :
    ∃ r : ResultVolume, getVolumes p = (some r, none) ∧
      flt (ofNat 0) r.SpecificVolumeLiquid = true ∧
      flt (ofNat 0) r.SpecificVolumeVapor = true ∧
      fle r.SpecificVolumeLiquid r.SpecificVolumeVapor = true ∧
      (feq r.SpecificVolumeLiquid r.SpecificVolumeVapor = true ↔ feq p (ofNat 10) = true) ∧
      fle (ofRatio 105 100000) r.SpecificVolumeLiquid = true ∧
      fle r.SpecificVolumeLiquid (ofRatio 35 10000) = true ∧
      fle (ofRatio 35 10000) r.SpecificVolumeVapor = true ∧
      fle r.SpecificVolumeVapor (ofNat 30) = true := by
  obtain ⟨k, rfl, h1, h2⟩ := (valid_iff _).1 ⟨hlo, hhi⟩
  obtain ⟨c0, cLo, cHi, hEq, c30, hpos, hpred⟩ := range_ends
  have l1 := liquidK_mono h1
  have l2 := liquidK_mono h2
  have v1 := vaporK_anti h1
  have v2 := vaporK_anti h2
  refine ⟨_, getVolumes_fin k h1 h2, ?_, ?_, ?_, ?_, ?_, ?_, ?_, ?_⟩
  · rw [c0]; simp only [flt, signedK, decide_eq_true_eq, Bool.false_eq_true, if_false]
    omega
  · rw [c0]; simp only [flt, signedK, decide_eq_true_eq, Bool.false_eq_true, if_false]
    omega
  · simp only [fle, signedK, decide_eq_true_eq, Bool.false_eq_true, if_false]
    omega
  · rw [const_bounds.2]
    simp only [feq, signedK, decide_eq_true_eq, Bool.false_eq_true, if_false]
    constructor
    · intro h
      by_contra hk
      have hk' : k < kMax := by omega
      have := vaporK_anti (isRep_lt_kMax k hwf hk')
      omega
    · intro h
      have : k = kMax := by omega
      subst this
      omega
  · rw [cLo]; simp only [fle, signedK, decide_eq_true_eq, Bool.false_eq_true, if_false]
    omega
  · rw [cHi]; simp only [fle, signedK, decide_eq_true_eq, Bool.false_eq_true, if_false]
    omega
  · rw [cHi]; simp only [fle, signedK, decide_eq_true_eq, Bool.false_eq_true, if_false]
    omega
  · rw [c30]; simp only [fle, signedK, decide_eq_true_eq, Bool.false_eq_true, if_false]
    omega

theorem C10_witness :
    ∃ r : ResultVolume, getVolumes (ofNat 1) = (some r, none) ∧
      flt (ofNat 0) r.SpecificVolumeLiquid = true ∧
      flt (ofNat 0) r.SpecificVolumeVapor = true ∧
      fle r.SpecificVolumeLiquid r.SpecificVolumeVapor = true ∧
      (feq r.SpecificVolumeLiquid r.SpecificVolumeVapor = true ↔
        feq (ofNat 1) (ofNat 10) = true) ∧
      fle (ofRatio 105 100000) r.SpecificVolumeLiquid = true ∧
      fle r.SpecificVolumeLiquid (ofRatio 35 10000) = true ∧
      fle (ofRatio 35 10000) r.SpecificVolumeVapor = true ∧
      fle r.SpecificVolumeVapor (ofNat 30) = true :=
  C10_volume_ranges (ofNat 1) (by decide) (by decide) (by decide)

/-! ## The gateway -/

theorem queryGet_absent (q : List (String × String)) (key : String)
    (h : ∀ v, (key, v) ∉ q) : queryGet q key = "" := by
  induction q with
  | nil => rfl
  | cons kv rest ih =>
    obtain ⟨k, v⟩ := kv
    have hk : k ≠ key := by
      intro e
      exact h v (by rw [e]; exact List.mem_cons_self _ _)
    simp only [queryGet, hk, if_false]
    exact ih (fun v hv => h v (List.mem_cons_of_mem _ hv))

theorem headerGet_filter_ne (h : List (String × String)) (key k : String) (hne : k ≠ key) :
    headerGet (h.filter (fun kv => kv.1 != key)) k = headerGet h k := by
  induction h with
  | nil => rfl
  | cons kv rest ih =>
    obtain ⟨a, b⟩ := kv
    by_cases ha : a = key
    · subst ha
      have : k ≠ a := hne
      simp [List.filter_cons, headerGet, ih, Ne.symm this]
    · by_cases hk : a = k
      · subst hk
        simp [List.filter_cons, headerGet, ha]
      · simp [List.filter_cons, headerGet, ha, hk, ih]

theorem headerGet_filter_eq (h : List (String × String)) (key : String) :
    headerGet (h.filter (fun kv => kv.1 != key)) key = none := by
  induction h with
  | nil => rfl
  | cons kv rest ih =>
    obtain ⟨a, b⟩ := kv
    by_cases ha : a = key
    · simp [List.filter_cons, ha, ih]
    · simp [List.filter_cons, headerGet, ha, ih]

theorem headerGet_append (h1 h2 : List (String × String)) (k : String) :
    headerGet (h1 ++ h2) k = (headerGet h1 k).orElse (fun _ => headerGet h2 k) := by
  induction h1 with
  | nil => simp [headerGet]
  | cons kv rest ih =>
    obtain ⟨a, b⟩ := kv
    by_cases ha : a = k
    · simp [headerGet, ha]
    · simp [headerGet, ha, ih]

/-- After `Set(key, value)` the key holds the value. -/
theorem headerGet_set_same (h : List (String × String)) (key value : String) :
    headerGet (headerSet h key value) key = some value := by
  simp [headerSet, headerGet_append, headerGet_filter_eq, headerGet]

/-- A call `Set(key, value)` leaves the other keys alone. -/
theorem headerGet_set_other (h : List (String × String)) (key value k : String)
    (hne : k ≠ key) : headerGet (headerSet h key value) k = headerGet h k := by
  simp only [headerSet, headerGet_append, headerGet_filter_ne h key k hne, headerGet,
    Ne.symm hne, if_false]
  cases headerGet h k <;> rfl

theorem setCors_header (w : ResponseWriter) :
    headerGet (setCors w).header "Access-Control-Allow-Origin" = some "*" ∧
      headerGet (setCors w).header "Access-Control-Allow-Methods"
        = some "GET, POST, PUT, DELETE, OPTIONS" ∧
      headerGet (setCors w).header "Access-Control-Allow-Headers"
        = some "Content-Type, Authorization" ∧
      headerGet (setCors w).header "Content-Type" = some "application/json" := by
  simp only [setCors, ResponseWriter.setHeader]
  refine ⟨?_, ?_, ?_, ?_⟩
  · rw [headerGet_set_other _ _ _ _ (by decide), headerGet_set_other _ _ _ _ (by decide),
      headerGet_set_other _ _ _ _ (by decide), headerGet_set_same]
  · rw [headerGet_set_other _ _ _ _ (by decide), headerGet_set_other _ _ _ _ (by decide),
      headerGet_set_same]
  · rw [headerGet_set_other _ _ _ _ (by decide), headerGet_set_same]
  · rw [headerGet_set_same]

/-- C3: when the pressure parameter is missing, empty or does not parse, or parses to a
value that getVolumes rejects, the handler writes status 500 and nothing else: the client
gets status 500 and an empty body, the same response for every kind of failure. -/
theorem C3_failures_give_500 (parseFloat : String → Option F64) (formatFloat : F64 → String)
    (r : Request) (hEmpty : parseFloat "" = none)
    (h : (∀ v, ("pressure", v) ∉ r.Query) ∨ queryGet r.Query "pressure" = "" ∨
      parseFloat (queryGet r.Query "pressure") = none ∨
      ∃ p, parseFloat (queryGet r.Query "pressure") = some p ∧ (getVolumes p).2 ≠ none) :
    (∀ w : ResponseWriter, w.wroteHeader = false →
      phaseChangeDiagram parseFloat formatFloat w r = w.WriteHeader 500 ∧
      finish (phaseChangeDiagram parseFloat formatFloat w r)
        = { status := 500, header := w.header, body := w.body }) ∧
    (r.Method = "GET" → r.Path = "/phase-change-diagram" →
      respond parseFloat formatFloat r = { status := 500, header := corsHeader, body := "" }) := by
  have key : ∀ w : ResponseWriter,
      phaseChangeDiagram parseFloat formatFloat w r = w.WriteHeader 500 := by
    intro w
    have hcases : parseFloat (queryGet r.Query "pressure") = none ∨
        ∃ p, parseFloat (queryGet r.Query "pressure") = some p ∧ (getVolumes p).2 ≠ none := by
      rcases h with h | h | h | h
      · left; rw [queryGet_absent _ _ h]; exact hEmpty
      · left; rw [h]; exact hEmpty
      · left; exact h
      · right; exact h
    rcases hcases with hn | ⟨p, hp, hrej⟩
    · simp only [phaseChangeDiagram, hn]
    · simp only [phaseChangeDiagram, hp]
      rcases hg : getVolumes p with ⟨res, err⟩
      rw [hg] at hrej
      cases err with
      | none => exact absurd rfl hrej
      | some e => rfl
  refine ⟨fun w hw => ⟨key w, ?_⟩, fun hm hpath => ?_⟩
  · rw [key w]
    simp [finish, ResponseWriter.WriteHeader, hw]
  · simp only [respond, routesConfig, router, hm, hpath, key]
    decide

theorem C3_witness :
    (∀ w : ResponseWriter, w.wroteHeader = false →
      phaseChangeDiagram parseOnlyNaN (fun _ => "") w
          { Method := "GET", Path := "/phase-change-diagram", Query := [("pressure", "abc")] }
        = w.WriteHeader 500 ∧
      finish (phaseChangeDiagram parseOnlyNaN (fun _ => "") w
          { Method := "GET", Path := "/phase-change-diagram", Query := [("pressure", "abc")] })
        = { status := 500, header := w.header, body := w.body }) ∧
    ((({ Method := "GET", Path := "/phase-change-diagram", Query := [("pressure", "abc")] } :
        Request).Method = "GET") →
      (({ Method := "GET", Path := "/phase-change-diagram", Query := [("pressure", "abc")] } :
        Request).Path = "/phase-change-diagram") →
      respond parseOnlyNaN (fun _ => "")
          { Method := "GET", Path := "/phase-change-diagram", Query := [("pressure", "abc")] }
        = { status := 500, header := corsHeader, body := "" }) :=
  C3_failures_give_500 parseOnlyNaN (fun _ => "")
    { Method := "GET", Path := "/phase-change-diagram", Query := [("pressure", "abc")] }
    (by decide) (Or.inr (Or.inr (Or.inl (by decide))))

/-- C4, at the failing input: for `GET /phase-change-diagram?pressure=NaN` the parameter
parses to NaN, getVolumes accepts it, encoding the result fails and nothing is written: the
response has status 200 and the JSON content type, and an empty body instead of the JSON
object. -/
theorem C4_nan_request_has_empty_body (parseFloat : String → Option F64)
    (formatFloat : F64 → String) (hNaN : parseFloat "NaN" = some .nan) :
    (getVolumes .nan).2 = none ∧
    respond parseFloat formatFloat
        { Method := "GET", Path := "/phase-change-diagram", Query := [("pressure", "NaN")] }
      = { status := 200, header := corsHeader, body := "" } := by
  refine ⟨by decide, ?_⟩
  have hq : queryGet [("pressure", "NaN")] "pressure" = "NaN" := by decide
  have hg : getVolumes .nan =
      (some { SpecificVolumeLiquid := .nan, SpecificVolumeVapor := .nan }, none) := by decide
  simp only [respond, routesConfig, router, phaseChangeDiagram, hq, hNaN, hg, jsonEncode,
    F64.isFinite, Bool.and_self, Bool.false_eq_true, if_false]
  decide

theorem C4_witness :
    (getVolumes .nan).2 = none ∧
    respond parseOnlyNaN (fun _ => "")
        { Method := "GET", Path := "/phase-change-diagram", Query := [("pressure", "NaN")] }
      = { status := 200, header := corsHeader, body := "" } :=
  C4_nan_request_has_empty_body parseOnlyNaN (fun _ => "") (by decide)

/-- The inputs `getVolumes` accepts are NaN and the doubles between the two bounds. -/
theorem accepted_cases (p : F64) (hacc : (getVolumes p).2 = none) (hnan : p ≠ .nan) :
    fle (ofRatio 5 100) p = true ∧ fle p (ofNat 10) = true := by
  unfold getVolumes at hacc
  by_cases hc : (fgt p (ofNat 10) || flt p (ofRatio 5 100)) = true
  · rw [if_pos hc] at hacc
    simp at hacc
  · simp only [Bool.or_eq_true, not_or, Bool.not_eq_true] at hc
    rw [const_bounds.1, const_bounds.2] at hc ⊢
    obtain ⟨c1, c2⟩ := hc
    cases p with
    | nan => exact absurd rfl hnan
    | inf s => cases s <;> simp [fgt, flt] at c1 c2
    | fin s k =>
      simp only [fgt, flt, fle, decide_eq_false_iff_not, decide_eq_true_eq, not_lt]
        at c1 c2 ⊢
      exact ⟨c2, c1⟩

/-- For every pressure that getVolumes accepts other than NaN, the response to the GET
request is status 200 with the JSON content type and the JSON object of the two volumes. -/
theorem respond_ok (parseFloat : String → Option F64) (formatFloat : F64 → String)
    (r : Request) (p : F64) (hm : r.Method = "GET") (hpath : r.Path = "/phase-change-diagram")
    (hp : parseFloat (queryGet r.Query "pressure") = some p)
    (hacc : (getVolumes p).2 = none) (hnan : p ≠ .nan) :
    ∃ res : ResultVolume, getVolumes p = (some res, none) ∧
      respond parseFloat formatFloat r =
        { status := 200, header := corsHeader,
          body := "\x7b\"specific_volume_liquid\":" ++ formatFloat res.SpecificVolumeLiquid ++
            ",\"specific_volume_vapor\":" ++ formatFloat res.SpecificVolumeVapor ++ "\x7d\n" } := by
  have hv := accepted_cases p hacc hnan
  obtain ⟨k, rfl, h1, h2⟩ := (valid_iff p).1 hv
  have hg := getVolumes_fin k h1 h2
  refine ⟨_, hg, ?_⟩
  simp only [respond, routesConfig, router, phaseChangeDiagram, hm, hpath, hp, hg, jsonEncode,
    F64.isFinite]
  simp [finish, ResponseWriter.Write, ResponseWriter.WriteHeader, ResponseWriter.setHeader,
    newWriter, headerSet, corsHeader]

/-- C5: for a request with method OPTIONS, on any path and whatever the wrapped handler
is, routesConfig sets the four headers and writes status 200 with no body, without calling
the wrapped handler; for every other method it sets the same four headers and returns what
one call of the wrapped handler returns on that writer and request. -/
theorem C5_routesConfig (next : Handler) (w : ResponseWriter) (r : Request)
    (hw : w.wroteHeader = false) :
    (r.Method = "OPTIONS" →
      routesConfig next w r = (setCors w).WriteHeader 200 ∧
      (∀ other : Handler, routesConfig other w r = routesConfig next w r) ∧
      finish (routesConfig next w r)
        = { status := 200, header := (setCors w).header, body := w.body }) ∧
    (r.Method ≠ "OPTIONS" → routesConfig next w r = next (setCors w) r) ∧
    headerGet (setCors w).header "Access-Control-Allow-Origin" = some "*" ∧
    headerGet (setCors w).header "Access-Control-Allow-Methods"
      = some "GET, POST, PUT, DELETE, OPTIONS" ∧
    headerGet (setCors w).header "Access-Control-Allow-Headers"
      = some "Content-Type, Authorization" ∧
    headerGet (setCors w).header "Content-Type" = some "application/json" ∧
    (setCors newWriter).header = corsHeader ∧ newWriter.body = "" := by
  refine ⟨fun hm => ⟨?_, fun other => ?_, ?_⟩, fun hm => ?_, (setCors_header w).1,
    (setCors_header w).2.1, (setCors_header w).2.2.1, (setCors_header w).2.2.2,
    by decide, rfl⟩
  · simp only [routesConfig, hm, if_true, setCors]
  · simp only [routesConfig, hm, if_true]
  · simp only [routesConfig, hm, if_true]
    simp [finish, ResponseWriter.WriteHeader, ResponseWriter.setHeader, setCors, hw]
  · simp only [routesConfig, hm, if_false, setCors]

theorem C5_witness :
    (({ Method := "OPTIONS", Path := "/phase-change-diagram", Query := [] } : Request).Method
        = "OPTIONS" →
      routesConfig (router (phaseChangeDiagram parseOnlyNaN (fun _ => ""))) newWriter
          { Method := "OPTIONS", Path := "/phase-change-diagram", Query := [] }
        = (setCors newWriter).WriteHeader 200 ∧
      (∀ other : Handler,
        routesConfig other newWriter
            { Method := "OPTIONS", Path := "/phase-change-diagram", Query := [] }
          = routesConfig (router (phaseChangeDiagram parseOnlyNaN (fun _ => ""))) newWriter
            { Method := "OPTIONS", Path := "/phase-change-diagram", Query := [] }) ∧
      finish (routesConfig (router (phaseChangeDiagram parseOnlyNaN (fun _ => ""))) newWriter
          { Method := "OPTIONS", Path := "/phase-change-diagram", Query := [] })
        = { status := 200, header := (setCors newWriter).header, body := newWriter.body }) ∧
    (({ Method := "OPTIONS", Path := "/phase-change-diagram", Query := [] } : Request).Method
        ≠ "OPTIONS" →
      routesConfig (router (phaseChangeDiagram parseOnlyNaN (fun _ => ""))) newWriter
          { Method := "OPTIONS", Path := "/phase-change-diagram", Query := [] }
        = router (phaseChangeDiagram parseOnlyNaN (fun _ => "")) (setCors newWriter)
          { Method := "OPTIONS", Path := "/phase-change-diagram", Query := [] }) ∧
    headerGet (setCors newWriter).header "Access-Control-Allow-Origin" = some "*" ∧
    headerGet (setCors newWriter).header "Access-Control-Allow-Methods"
      = some "GET, POST, PUT, DELETE, OPTIONS" ∧
    headerGet (setCors newWriter).header "Access-Control-Allow-Headers"
      = some "Content-Type, Authorization" ∧
    headerGet (setCors newWriter).header "Content-Type" = some "application/json" ∧
    (setCors newWriter).header = corsHeader ∧ newWriter.body = "" :=
  C5_routesConfig (router (phaseChangeDiagram parseOnlyNaN (fun _ => ""))) newWriter
    { Method := "OPTIONS", Path := "/phase-change-diagram", Query := [] } rfl

end PhaseChange
